import Mathlib

/-!
ThreadPool: a shallow embedding of `threadpool.h` / `threadpool.cpp`

The embedding follows the C++ source member by member.

* `Any` is the type-erased container: `base_` is a `std::unique_ptr<Base>` that is either
  null or points to a `Derive<T>` holding `data_ : T`.  The run-time type of the pointee
  (what `dynamic_cast` inspects) is the first component of a dependent pair.
* `Semaphore`, `Result`, `Task`, `Thread`, `ThreadPool` are records of the data members.
* A blocking call (`Semaphore::wait`, a condition-variable wait) is a function to `Option`:
  `none` means that the caller cannot proceed in the given state.
* A null `unique_ptr` dereference is undefined behaviour; the functions that can reach one
  return `Option` and yield `none` there.
* Every function is one critical section of the source, executed atomically under
  `taskQueMutex_`.  A condition-variable wait releases the mutex, so the pool states seen at
  the successive wake-ups of a wait are an explicit argument (`wakeups`).
* A `std::condition_variable` member is modelled by the number of `notify_all` calls issued
  on it.
* `int` and `std::atomic_int` members are `Int`; `size_t` values are `Nat`.  A comparison
  between an `int` and a `size_t` converts the `int` to `size_t` first (`toSizeT`).
* `++` and `--` on the `std::atomic_int` counters `taskSize_` and `idleThreadSize_` wrap
  around in 32 bits (`wrap32`).  `curThreadSize_++` is executed only under
  `curThreadSize_ < threadSizeThreshold_`, the latter an `int`, and `curThreadSize_--` only
  by a worker that was counted before, so these two stay in the 32-bit range and are plain
  `+ 1` and `- 1`.
-/

namespace ThreadPoolModel

/-! ## Type-erased container `Any` -/

/-- C++ value types that may be stored in an `Any`. -/
inductive CType where
  | int
  | uLong
  | bool
  | cstr
  | pair (a b : CType)
  | vector (a : CType)
  deriving DecidableEq, Repr

/-- Values of a C++ type. `cstr` is `const char*`, represented by the string it points to. -/
def CType.El : CType → Type
  | .int => Int
  | .uLong => Nat
  | .bool => Bool
  | .cstr => String
  | .pair a b => a.El × b.El
  | .vector a => List a.El

/-- Equality of values is decidable at every C++ type of the universe. -/
def CType.decEqEl : (T : CType) → DecidableEq T.El
  | .int => inferInstanceAs (DecidableEq Int)
  | .uLong => inferInstanceAs (DecidableEq Nat)
  | .bool => inferInstanceAs (DecidableEq Bool)
  | .cstr => inferInstanceAs (DecidableEq String)
  | .pair a b =>
    have := CType.decEqEl a
    have := CType.decEqEl b
    inferInstanceAs (DecidableEq (a.El × b.El))
  | .vector a =>
    have := CType.decEqEl a
    inferInstanceAs (DecidableEq (List a.El))

instance (T : CType) : DecidableEq T.El := CType.decEqEl T

/-- The class `Any`: `base_` is null (`none`) or points to a `Derive<T>` with its `data_`. -/
structure Any where
  base_ : Option ((T : CType) × T.El)
  deriving DecidableEq

namespace Any

/-- The defaulted constructor `Any()`: `base_` is a null pointer. -/
def empty : Any := ⟨none⟩

/-- The constructor `template<typename T> explicit Any(T data)`:
`base_(std::make_unique<Derive<T>>(data))`. -/
def make (T : CType) (data : T.El) : Any := ⟨some ⟨T, data⟩⟩

/-- The method `template<typename T> T cast_()`: `dynamic_cast<Derive<T>*>(base_.get())` is null
when `base_` is null or points to a `Derive<U>` with `U ≠ T`; then the string literal is
thrown, otherwise `pd->data_` is returned. -/
def cast_ (T : CType) (a : Any) : Except String T.El :=
  match a.base_ with
  | none => .error "type is mismatch"
  | some ⟨U, data_⟩ =>
    if h : U = T then .ok (h ▸ data_) else .error "type is mismatch"

end Any

/-! ## Semaphore -/

/-- The class `Semaphore`: its resource counter (`mtx_` and `cond_` are synchronisation only). -/
structure Semaphore where
  resLimit_ : Int
  deriving DecidableEq, Repr

namespace Semaphore

/-- The constructor `Semaphore(int limit = 0)`; the default is written out at the call. -/
def new (limit : Int) : Semaphore := ⟨limit⟩

/-- The method `wait()`: `cond_.wait(lock, resLimit_ > 0)` then `resLimit_--`.
`none`: the predicate is false, the caller stays blocked. -/
def wait (s : Semaphore) : Option Semaphore :=
  if s.resLimit_ > 0 then some ⟨s.resLimit_ - 1⟩ else none

/-- The method `post()`: `resLimit_++` (and `cond_.notify_all()`). -/
def post (s : Semaphore) : Semaphore := ⟨s.resLimit_ + 1⟩

end Semaphore

/-! ## Task and Result -/

/-- A task object: its identity and the value its `run()` override returns. -/
structure Task where
  id : Nat
  run : Any
  deriving DecidableEq

/-- The class `Result`. -/
structure Result where
  any_ : Any
  semaphore_ : Semaphore
  task_ : Task
  isValid : Bool
  deriving DecidableEq

namespace Result

/-- The constructor `Result(std::shared_ptr<Task> task, bool isValid = true)`: `any_` and
`semaphore_` are default-constructed (null pointer, count 0). -/
def new (task : Task) (isValid : Bool) : Result :=
  { any_ := Any.empty, semaphore_ := Semaphore.new 0, task_ := task, isValid := isValid }

/-- The method `get()`: an invalid handle returns `Any("")` at once; otherwise
`semaphore_.wait()` and then `std::move(any_)`, which leaves `any_` null.
`none`: the caller is blocked in `semaphore_.wait()`. -/
def get (r : Result) : Option (Any × Result) :=
  if !r.isValid then
    some (Any.make .cstr "", r)
  else
    match r.semaphore_.wait with
    | none => none
    | some sem => some (r.any_, { r with semaphore_ := sem, any_ := Any.empty })

/-- The method `setVal(Any any)`: store the value, then `semaphore_.post()`. -/
def setVal (r : Result) (any : Any) : Result :=
  { r with any_ := any, semaphore_ := r.semaphore_.post }

end Result

/-- The method `Task::exec()`: when a result is bound (`result_ != nullptr`), it receives
`run()` through `setVal`. -/
def Task.exec (t : Task) (result_ : Option Result) : Option Result :=
  match result_ with
  | none => none
  | some r => some (r.setVal t.run)

/-! ## Thread and the worker registry -/

/-- The class `Thread`. `func_` is always the pool's `threadFunc` and is not recorded;
`spawned` counts the detached `std::thread` objects launched by `start()` on this object. -/
structure Thread where
  threadId_ : Int
  spawned : Nat
  deriving DecidableEq, Repr

namespace Thread

/-- The constructor `Thread(ThreadFunc func)`: `threadId_(generateId_++)`.  The static counter
`Thread::generateId_` is passed in and its new value is returned. -/
def new (generateId_ : Int) : Thread × Int :=
  ({ threadId_ := generateId_, spawned := 0 }, generateId_ + 1)

/-- The method `start()`: launches one detached `std::thread` running `func_(threadId_)`. -/
def start (t : Thread) : Thread := { t with spawned := t.spawned + 1 }

/-- The method `getThreadId()`. -/
def getThreadId (t : Thread) : Int := t.threadId_

end Thread

/-- The operations of `std::unordered_map<int, std::unique_ptr<Thread>>` used by the pool, on an
association list; a mapped value `none` is a null `unique_ptr`. -/
abbrev UMap := List (Int × Option Thread)

namespace UMap

/-- Membership test for a key. -/
def contains (m : UMap) (k : Int) : Bool := m.any (fun e => e.1 == k)

/-- The call `emplace(k, v)`: inserts unless the key is already present. -/
def emplace (m : UMap) (k : Int) (v : Option Thread) : UMap :=
  if contains m k then m else m ++ [(k, v)]

/-- The call `operator[](k)`: inserts a null pointer when the key is absent; returns the map
and the mapped pointer. -/
def index (m : UMap) (k : Int) : UMap × Option Thread :=
  match m.lookup k with
  | some p => (m, p)
  | none => (m ++ [(k, none)], none)

/-- The call `erase(k)`. -/
def erase (m : UMap) (k : Int) : UMap := m.filter (fun e => e.1 != k)

/-- The statement `threads_[k]->start()`: `operator[]` followed by a dereference of the mapped
pointer.  `none`: the pointer is null (undefined behaviour). -/
def startAt (m : UMap) (k : Int) : Option UMap :=
  match index m k with
  | (_, none) => none
  | (m1, some t) => some (m1.map (fun e => if e.1 == k then (e.1, some t.start) else e))

end UMap

/-! ## The pool -/

/-- The enumeration `PoolMode`. -/
inductive PoolMode where
  | MODE_FIXED
  | MODE_CACHED
  deriving DecidableEq, Repr

/-- The constant `TASK_MAX_THRESHOLD = INT32_MAX`. -/
def TASK_MAX_THRESHOLD : Int := 2147483647
/-- The constant `THREAD_MAX_THRESHOLD`. -/
def THREAD_MAX_THRESHOLD : Int := 128
/-- The constant `THREAD_MAX_IDEL_TIME`, in seconds. -/
def THREAD_MAX_IDEL_TIME : Int := 60
/-- The largest value of a C++ `int`. -/
def INT_MAX : Int := 2147483647
/-- The smallest value of a C++ `int`. -/
def INT_MIN : Int := -2147483648

/-- The value a 32-bit `std::atomic_int` holds after `++` or `--` computed `x`:
two's-complement wrap-around into `INT_MIN .. INT_MAX`. -/
def wrap32 (x : Int) : Int := (x + 2147483648) % 4294967296 - 2147483648

/-- Conversion of an `int` to `size_t` (64 bits), as done by the usual arithmetic conversions
and by the assignment `initThreadSize_ = initThreadSize`. -/
def toSizeT (x : Int) : Nat := (x % 2 ^ 64).toNat

/-- The class `ThreadPool`.  The three condition variables hold the number of `notify_all`
calls issued on them; `taskQueMutex_` is implicit (see the file header). -/
structure ThreadPool where
  threads_ : UMap
  initThreadSize_ : Nat
  threadSizeThreshold_ : Int
  curThreadSize_ : Int
  idleThreadSize_ : Int
  taskQue_ : List Task
  taskSize_ : Int
  taskQueMaxThreshold_ : Int
  notFull_ : Nat
  notEmpty_ : Nat
  exitCond_ : Nat
  poolMode_ : PoolMode
  isPoolRunning_ : Bool
  deriving DecidableEq

/-- The enumeration `std::cv_status`. -/
inductive CvStatus where
  | no_timeout
  | timeout
  deriving DecidableEq, Repr

/-- The call `cv.wait_for(lock, 1s, pred)`: `while (!pred()) if (timed out) return pred();
return true;`.  `s` is the pool state at the call, `wakeups` the pool states at the
successive wake-ups, the last one being the wake-up at which the time has run out (an empty
list: the time runs out with the state unchanged).  Returns the state at the return together
with the returned flag. -/
def wait_for (pred : ThreadPool → Bool) : ThreadPool → List ThreadPool → ThreadPool × Bool
  | s, [] => (s, pred s)
  | s, s1 :: rest => if pred s then (s, true) else wait_for pred s1 rest

/-- The call `cv.wait(lock, pred)`: `while (!pred()) wait(lock);`.  `none`: the predicate is
still false after the last wake-up listed, the caller stays blocked. -/
def wait (pred : ThreadPool → Bool) : ThreadPool → List ThreadPool → Option ThreadPool
  | s, [] => if pred s then some s else none
  | s, s1 :: rest => if pred s then some s else wait pred s1 rest

namespace ThreadPool

/-- The constructor `ThreadPool()`.  `curThreadSize_` has no member initialiser: its initial
value is the one left by the default constructor of `std::atomic_int` (zero from C++20 on,
indeterminate before) and is a parameter. -/
def new (curThreadSize0 : Int) : ThreadPool :=
  { threads_ := []
    initThreadSize_ := 0
    threadSizeThreshold_ := THREAD_MAX_THRESHOLD
    curThreadSize_ := curThreadSize0
    idleThreadSize_ := 0
    taskQue_ := []
    taskSize_ := 0
    taskQueMaxThreshold_ := TASK_MAX_THRESHOLD
    notFull_ := 0
    notEmpty_ := 0
    exitCond_ := 0
    poolMode_ := .MODE_FIXED
    isPoolRunning_ := false }

/-- Every `int` and `std::atomic_int` member holds a value of a 32-bit `int`. -/
def intFields (s : ThreadPool) : Bool :=
  decide (INT_MIN ≤ s.threadSizeThreshold_ ∧ s.threadSizeThreshold_ ≤ INT_MAX
    ∧ INT_MIN ≤ s.curThreadSize_ ∧ s.curThreadSize_ ≤ INT_MAX
    ∧ INT_MIN ≤ s.idleThreadSize_ ∧ s.idleThreadSize_ ≤ INT_MAX
    ∧ INT_MIN ≤ s.taskSize_ ∧ s.taskSize_ ≤ INT_MAX
    ∧ INT_MIN ≤ s.taskQueMaxThreshold_ ∧ s.taskQueMaxThreshold_ ≤ INT_MAX)

/-- The method `checkRuningState()`. -/
def checkRuningState (s : ThreadPool) : Bool := s.isPoolRunning_

/-- The method `setMode(PoolMode mode)`. -/
def setMode (s : ThreadPool) (mode : PoolMode) : ThreadPool :=
  if s.checkRuningState then s else { s with poolMode_ := mode }

/-- The method `setTaskQueMaxThreshold(int threshold)`. -/
def setTaskQueMaxThreshold (s : ThreadPool) (threshold : Int) : ThreadPool :=
  if s.checkRuningState then s else { s with taskQueMaxThreshold_ := threshold }

/-- The method `setThreadSizeThreshold(int threshold)`. -/
def setThreadSizeThreshold (s : ThreadPool) (threshold : Int) : ThreadPool :=
  if s.checkRuningState then s
  else if s.poolMode_ = .MODE_CACHED then { s with threadSizeThreshold_ := threshold }
  else s

/-- The predicate of the wait in `submitTask`: `taskQue_.size() < taskQueMaxThreshold_`, the
`int` being converted to `size_t`. -/
def notFull (s : ThreadPool) : Bool := decide (s.taskQue_.length < toSizeT s.taskQueMaxThreshold_)

/-- The method `submitTask(std::shared_ptr<Task> sp)`.  `generateId_` is the value of
`Thread::generateId_` at the call; its value at the return is part of the result.
`none`: `threads_[threadId]` is a null pointer (undefined behaviour). -/
def submitTask (s : ThreadPool) (wakeups : List ThreadPool) (sp : Task) (generateId_ : Int) :
    Option (ThreadPool × Int × Result) :=
  match wait_for notFull s wakeups with
  | (s1, false) => some (s1, generateId_, Result.new sp false)
  | (s1, true) =>
    let s2 := { s1 with
      taskQue_ := s1.taskQue_ ++ [sp]
      taskSize_ := wrap32 (s1.taskSize_ + 1)
      notEmpty_ := s1.notEmpty_ + 1 }
    if s2.poolMode_ = .MODE_CACHED ∧ s2.taskSize_ > s2.idleThreadSize_
        ∧ s2.curThreadSize_ < s2.threadSizeThreshold_ then
      let (ptr, g1) := Thread.new generateId_
      let threadId := ptr.getThreadId
      match UMap.startAt (UMap.emplace s2.threads_ threadId (some ptr)) threadId with
      | none => none
      | some m =>
        some ({ s2 with
                threads_ := m
                curThreadSize_ := s2.curThreadSize_ + 1
                idleThreadSize_ := wrap32 (s2.idleThreadSize_ + 1) }, g1, Result.new sp true)
    else
      some (s2, generateId_, Result.new sp true)

/-- The first loop of `start`: `k` further iterations, each constructing a `Thread` and
emplacing it under its own id. -/
def startCreate : Nat → UMap → Int → UMap × Int
  | 0, m, g => (m, g)
  | k + 1, m, g =>
    let (ptr, g1) := Thread.new g
    startCreate k (UMap.emplace m ptr.getThreadId (some ptr)) g1

/-- The second loop of `start`: `k` further iterations from loop index `i`, each executing
`threads_[i]->start(); idleThreadSize_++`. -/
def startLaunch : Nat → Int → UMap → Int → Option (UMap × Int)
  | 0, _, m, idle => some (m, idle)
  | k + 1, i, m, idle =>
    match UMap.startAt m i with
    | none => none
    | some m1 => startLaunch k (i + 1) m1 (wrap32 (idle + 1))

/-- The method `start(int initThreadSize)`.  Both loops run `initThreadSize_` times, which is
what `for (int i = 0; i < initThreadSize_; ++i)` does for `0 ≤ initThreadSize`; for a
negative argument the `int` loop counter overflows (undefined behaviour, `none`).
`none` also when some `threads_[i]` is a null pointer. -/
def start (s : ThreadPool) (initThreadSize : Int) (generateId_ : Int) :
    Option (ThreadPool × Int) :=
  if initThreadSize < 0 then none
  else
    let s1 := { s with
      isPoolRunning_ := true
      initThreadSize_ := toSizeT initThreadSize
      curThreadSize_ := initThreadSize }
    let (m, g1) := startCreate s1.initThreadSize_ s1.threads_ generateId_
    match startLaunch s1.initThreadSize_ 0 m s1.idleThreadSize_ with
    | none => none
    | some (m1, idle) => some ({ s1 with threads_ := m1, idleThreadSize_ := idle }, g1)

/-- The control points of `threadFunc`; `lastTime` is the local variable, in seconds. -/
inductive Pc where
  /-- at the test of `for (; isPoolRunning_;)` -/
  | loopHead (lastTime : Int)
  /-- holding the lock, at the test of `while (taskQue_.size() == 0)` -/
  | locked (lastTime : Int)
  /-- inside `notEmpty_.wait_for` / `notEmpty_.wait`, lock released -/
  | blocked (lastTime : Int)
  /-- lock released, running `task->exec()` -/
  | executing (lastTime : Int) (task : Task)
  /-- the thread function has returned -/
  | returned
  deriving DecidableEq

/-- One step of `threadFunc(int threadId)` from control point `pc` to the next one.
`status` is what `notEmpty_.wait_for` returns at a wake-up and `now` the clock reading, in
seconds; they are used only where the source reads them. -/
def threadFunc (threadId : Int) (status : CvStatus) (now : Int) (pc : Pc) (s : ThreadPool) :
    Pc × ThreadPool :=
  match pc with
  | .loopHead lastTime =>
    if s.isPoolRunning_ then (.locked lastTime, s)
    else
      (.returned, { s with
        threads_ := UMap.erase s.threads_ threadId
        exitCond_ := s.exitCond_ + 1 })
  | .locked lastTime =>
    match s.taskQue_ with
    | [] => (.blocked lastTime, s)
    | task :: rest =>
      (.executing lastTime task, { s with
        idleThreadSize_ := wrap32 (s.idleThreadSize_ - 1)
        taskQue_ := rest
        taskSize_ := wrap32 (s.taskSize_ - 1)
        notEmpty_ := if rest.length > 0 then s.notEmpty_ + 1 else s.notEmpty_
        notFull_ := s.notFull_ + 1 })
  | .blocked lastTime =>
    if s.poolMode_ = .MODE_CACHED ∧ status = .timeout
        ∧ now - lastTime ≥ THREAD_MAX_IDEL_TIME
        ∧ toSizeT s.curThreadSize_ > s.initThreadSize_ then
      (.returned, { s with
        threads_ := UMap.erase s.threads_ threadId
        curThreadSize_ := s.curThreadSize_ - 1
        idleThreadSize_ := wrap32 (s.idleThreadSize_ - 1) })
    else if !s.isPoolRunning_ then
      (.returned, { s with
        threads_ := UMap.erase s.threads_ threadId
        exitCond_ := s.exitCond_ + 1 })
    else (.locked lastTime, s)
  | .executing _ _ =>
    (.loopHead now, { s with idleThreadSize_ := wrap32 (s.idleThreadSize_ + 1) })
  | .returned => (.returned, s)

/-- The destructor up to its wait: `isPoolRunning_ = false; notEmpty_.notify_all()`. -/
def shutdown (s : ThreadPool) : ThreadPool :=
  { s with isPoolRunning_ := false, notEmpty_ := s.notEmpty_ + 1 }

/-- The destructor `~ThreadPool()`: `shutdown`, then
`exitCond_.wait(lock, threads_.size() == 0)`.  `none`: the destructor has not returned. -/
def destroy (s : ThreadPool) (wakeups : List ThreadPool) : Option ThreadPool :=
  wait (fun x => x.threads_.length == 0) s.shutdown wakeups

end ThreadPool

/-! ## The process: one pool, the static id counter, and the calls made on them -/

/-- The pool together with the static member `Thread::generateId_`. -/
structure Process where
  pool : ThreadPool
  generateId_ : Int
  deriving DecidableEq

/-- The calls that act on the pool: the public methods, one step of a worker's `threadFunc`,
the destructor's first two statements, and the construction of a `Thread` elsewhere in the
process (another pool), which advances the static counter. -/
inductive Op where
  | setMode (mode : PoolMode)
  | setTaskQueMaxThreshold (threshold : Int)
  | setThreadSizeThreshold (threshold : Int)
  | start (initThreadSize : Int)
  | submitTask (sp : Task)
  | threadFunc (threadId : Int) (status : CvStatus) (now : Int) (pc : ThreadPool.Pc)
  | shutdown
  | newThread
  deriving DecidableEq

/-- The effect of one call.  A submission is taken at the state in which its wait ends (the
steps of the other threads during the wait are calls of their own).  `none`: undefined
behaviour. -/
def Op.apply (op : Op) (p : Process) : Option Process :=
  match op with
  | .setMode mode => some { p with pool := p.pool.setMode mode }
  | .setTaskQueMaxThreshold t => some { p with pool := p.pool.setTaskQueMaxThreshold t }
  | .setThreadSizeThreshold t => some { p with pool := p.pool.setThreadSizeThreshold t }
  | .start n =>
    match p.pool.start n p.generateId_ with
    | none => none
    | some (s, g) => some { pool := s, generateId_ := g }
  | .submitTask sp =>
    match p.pool.submitTask [] sp p.generateId_ with
    | none => none
    | some (s, g, _) => some { pool := s, generateId_ := g }
  | .threadFunc threadId status now pc =>
    some { p with pool := (ThreadPool.threadFunc threadId status now pc p.pool).2 }
  | .shutdown => some { p with pool := p.pool.shutdown }
  | .newThread => some { p with generateId_ := (Thread.new p.generateId_).2 }

/-- Runs a sequence of calls, each of which must pass the check `ok` in the state it is made
in.  `none`: a call fails the check or has undefined behaviour. -/
def runWith (ok : Op → Process → Bool) : List Op → Process → Option Process
  | [], p => some p
  | op :: ops, p =>
    if ok op p then
      match op.apply p with
      | none => none
      | some p1 => runWith ok ops p1
    else none

/-- The calls of a pool user and of its workers, `start` taking any `n ≥ 0`. -/
def anyCall (op : Op) (_ : Process) : Bool :=
  match op with
  | .start n => decide (0 ≤ n)
  | _ => true

/-- As `anyCall`, with `start(n)` only for `n` up to the configured maximum, and with a
`setThreadSizeThreshold(t)` that takes effect (running flag false, mode `MODE_CACHED`) only
for `t` at or above the current worker count; a `setThreadSizeThreshold` that the pool
ignores is admitted with any argument. -/
def boundedCall (op : Op) (p : Process) : Bool :=
  match op with
  | .start n => decide (0 ≤ n ∧ n ≤ p.pool.threadSizeThreshold_)
  | .setThreadSizeThreshold t =>
    decide (p.pool.isPoolRunning_ = true ∨ p.pool.poolMode_ = .MODE_FIXED
      ∨ p.pool.curThreadSize_ ≤ t)
  | _ => true

/-- Every call except `start`. -/
def notStart (op : Op) (_ : Process) : Bool :=
  match op with
  | .start _ => false
  | _ => true

/-- The task appended to the queue by a call: the task of an accepted submission. -/
def enqueuedBy (op : Op) (p : Process) : List Task :=
  match op with
  | .submitTask sp =>
    match p.pool.submitTask [] sp p.generateId_ with
    | some (_, _, r) => if r.isValid then [sp] else []
    | none => []
  | _ => []

/-- The task taken from the queue by a call: the task a worker step starts to execute. -/
def dequeuedBy (op : Op) (p : Process) : List Task :=
  match op with
  | .threadFunc threadId status now pc =>
    match (ThreadPool.threadFunc threadId status now pc p.pool).1 with
    | .executing _ task => [task]
    | _ => []
  | _ => []

/-- Runs a sequence of calls other than `start` and records, in order, the tasks enqueued and
the tasks dequeued. -/
def trace : List Op → Process → Option (Process × List Task × List Task)
  | [], p => some (p, [], [])
  | op :: ops, p =>
    if notStart op p then
      match op.apply p with
      | none => none
      | some p1 =>
        match trace ops p1 with
        | none => none
        | some (q, enq, deq) => some (q, enqueuedBy op p ++ enq, dequeuedBy op p ++ deq)
    else none

/-- Registry keys come from the id counter: every key is below the next id to be issued. -/
def FreshIds (p : Process) : Prop := ∀ e ∈ p.pool.threads_, e.1 < p.generateId_

/-! ## Sample inputs -/

/-- A task whose `run()` returns `Any(uLong 5)`. -/
def taskA : Task := ⟨1, Any.make .uLong (5 : Nat)⟩
/-- A task whose `run()` returns `Any(uLong 6)`. -/
def taskB : Task := ⟨2, Any.make .uLong (6 : Nat)⟩
/-- A freshly constructed pool in a process that has not constructed any `Thread` yet. -/
def freshProcess : Process := ⟨ThreadPool.new 0, 0⟩

/-- A pool whose queue limit is 1 and whose queue holds one task. -/
def fullPool : ThreadPool :=
  { ThreadPool.new 0 with taskQue_ := [taskA], taskSize_ := 1, taskQueMaxThreshold_ := 1 }
/-- An elastic pool is started with one worker and grows to two; both workers finish their
task at time 1.  Worker 1 then waits for work, wakes by timeout at time 60 (idle for 59
seconds: it stays) and is back at the test of the inner loop when the destructor executes
`isPoolRunning_ = false; notEmpty_.notify_all()`; worker 1 then enters `wait_for` again. -/
def drainingProcess : Option Process :=
  runWith anyCall
    [.setMode .MODE_CACHED, .start 1, .submitTask taskA,
     .threadFunc 0 .no_timeout 0 (.locked 0), .submitTask taskB,
     .threadFunc 1 .no_timeout 0 (.locked 0),
     .threadFunc 0 .no_timeout 1 (.executing 0 taskA),
     .threadFunc 1 .no_timeout 1 (.executing 0 taskB),
     .threadFunc 1 .no_timeout 1 (.loopHead 1),
     .threadFunc 1 .no_timeout 1 (.locked 1),
     .threadFunc 1 .timeout 60 (.blocked 1),
     .shutdown,
     .threadFunc 1 .no_timeout 60 (.locked 1)] freshProcess

/-- A not-running pool switched to `MODE_CACHED`. -/
def cachedPool : ThreadPool := (ThreadPool.new 0).setMode .MODE_CACHED

/-- Calls on an elastic pool: one worker at `start`, a second one added by a submission. -/
def growingCalls : List Op :=
  [.submitTask taskA, .threadFunc 0 .no_timeout 0 (.locked 0), .submitTask taskB,
   .threadFunc 1 .no_timeout 0 (.locked 0),
   .threadFunc 0 .no_timeout 1 (.executing 0 taskA),
   .threadFunc 1 .no_timeout 1 (.executing 0 taskB),
   .threadFunc 1 .timeout 1 (.loopHead 1), .threadFunc 1 .timeout 1 (.locked 1),
   .threadFunc 1 .timeout 61 (.blocked 1), .threadFunc 0 .timeout 1 (.loopHead 1),
   .threadFunc 0 .timeout 1 (.locked 1), .threadFunc 0 .timeout 61 (.blocked 1)]

/-- The elastic pool right after `start(1)`, id counter at 0 before the call. -/
def startedPool : ThreadPool :=
  { threads_ := [(0, some ⟨0, 1⟩)]
    initThreadSize_ := 1
    threadSizeThreshold_ := THREAD_MAX_THRESHOLD
    curThreadSize_ := 1
    idleThreadSize_ := 1
    taskQue_ := []
    taskSize_ := 0
    taskQueMaxThreshold_ := TASK_MAX_THRESHOLD
    notFull_ := 0
    notEmpty_ := 0
    exitCond_ := 0
    poolMode_ := .MODE_CACHED
    isPoolRunning_ := true }

/-- The state after `growingCalls` on `startedPool`: the second worker has retired. -/
def flooredProcess : Process :=
  { pool := { startedPool with notFull_ := 2, notEmpty_ := 2 }, generateId_ := 2 }

/-- Calls that configure maximum 4, start one worker, call `setThreadSizeThreshold(0)` on the
running pool (ignored) and grow to two workers. -/
def boundedCalls : List Op :=
  [.setMode .MODE_CACHED, .setThreadSizeThreshold 4, .start 1, .setThreadSizeThreshold 0,
   .submitTask taskA, .threadFunc 0 .no_timeout 0 (.locked 0), .submitTask taskB]

/-- The state after `boundedCalls` on a fresh pool. -/
def grownProcess : Process :=
  { pool :=
      { startedPool with
        threads_ := [(0, some ⟨0, 1⟩), (1, some ⟨1, 1⟩)]
        threadSizeThreshold_ := 4
        curThreadSize_ := 2
        taskQue_ := [taskB]
        taskSize_ := 1
        notFull_ := 1
        notEmpty_ := 2 }
    generateId_ := 2 }

/-- Two submissions, then two dequeues by workers 0 and 1, interleaved with a third
submission. -/
def fifoCalls : List Op :=
  [.submitTask taskA, .submitTask taskB, .threadFunc 0 .no_timeout 0 (.locked 0),
   .submitTask taskA, .threadFunc 1 .no_timeout 0 (.locked 0)]

/-! ## Lemmas on the registry -/

theorem UMap.lookup_of_not_contains (m : UMap) (k : Int) (h : UMap.contains m k = false) :
    m.lookup k = none := by
  induction m with
  | nil => rfl
  | cons e m ih =>
    obtain ⟨a, b⟩ := e
    simp only [UMap.contains, List.any_cons, Bool.or_eq_false_iff] at h
    have hne : (k == a) = false := by
      have h1 := h.1
      simp only [beq_eq_false_iff_ne, ne_eq] at h1 ⊢
      exact fun hk => h1 hk.symm
    simp only [List.lookup, hne]
    exact ih h.2

theorem UMap.map_start_of_not_contains (m : UMap) (k : Int) (t : Thread)
    (h : UMap.contains m k = false) :
    m.map (fun e => if e.1 == k then (e.1, some t.start) else e) = m := by
  induction m with
  | nil => rfl
  | cons e m ih =>
    simp only [UMap.contains, List.any_cons, Bool.or_eq_false_iff] at h
    simp only [List.map_cons, h.1, Bool.false_eq_true, if_false]
    rw [ih h.2]

theorem UMap.startAt_emplace_fresh (m : UMap) (k : Int) (t : Thread)
    (h : UMap.contains m k = false) :
    UMap.startAt (UMap.emplace m k (some t)) k = some (m ++ [(k, some t.start)]) := by
  have hl : (m ++ [(k, some t)]).lookup k = some (some t) := by
    rw [List.lookup_append, UMap.lookup_of_not_contains m k h]
    simp [List.lookup]
  simp only [UMap.startAt, UMap.emplace, h, Bool.false_eq_true, if_false, UMap.index, hl,
    List.map_append, UMap.map_start_of_not_contains m k t h]
  simp

/-! ## C1: round trip through `Any` -/

theorem Any.cast_make_same (T : CType) (v : T.El) : (Any.make T v).cast_ T = .ok v := by
  simp [Any.make, Any.cast_]

/-- C1: for every type `T` and value `v`, `Any(v).cast_<T>()` returns `v`, and for every type
`U` different from `T`, `Any(v).cast_<U>()` throws the type-mismatch error. -/
theorem Any_cast_roundtrip (T : CType) (v : T.El) :
    (Any.make T v).cast_ T = .ok v ∧
    ∀ U : CType, U ≠ T → (Any.make T v).cast_ U = .error "type is mismatch" := by
  constructor
  · exact Any.cast_make_same T v
  · intro U hU
    have hne : ¬ T = U := fun h => hU h.symm
    simp [Any.make, Any.cast_, hne]

/-- C1 at `T = unsigned long long`, `v = 5`, `U = int`. -/
theorem Any_cast_roundtrip_witness :
    (Any.make .uLong (5 : Nat)).cast_ .uLong = .ok (5 : Nat) ∧
    (Any.make .uLong (5 : Nat)).cast_ .int = .error "type is mismatch" :=
  ⟨(Any_cast_roundtrip .uLong (5 : Nat)).1,
   (Any_cast_roundtrip .uLong (5 : Nat)).2 .int (by decide)⟩

/-! ## C2: `Result::get` and `Result::setVal` -/

/-- C2: on a valid handle whose semaphore count is 0, `get()` is blocked as long as no
`setVal` has run; after one `setVal(Any(v))`, `get()` returns the container holding `v` and
the semaphore count is 0 again. -/
theorem Result_get_after_setVal (r : Result) (hv : r.isValid = true)
    (h0 : r.semaphore_.resLimit_ = 0) (T : CType) (v : T.El) :
    r.get = none ∧
    ∃ r1, (r.setVal (Any.make T v)).get = some (Any.make T v, r1) ∧
      (Any.make T v).cast_ T = .ok v ∧
      r1.semaphore_.resLimit_ = 0 ∧ r1.isValid = true ∧ r1.task_ = r.task_ := by
  constructor
  · simp [Result.get, hv, Semaphore.wait, h0]
  · refine ⟨{ r with semaphore_ := ⟨0⟩, any_ := Any.empty }, ?_, Any.cast_make_same T v,
      rfl, hv, rfl⟩
    simp [Result.get, Result.setVal, hv, Semaphore.wait, Semaphore.post, h0]

/-- C2 on the handle of an accepted submission of `taskA`, with `v = 5`. -/
theorem Result_get_after_setVal_witness :
    (Result.new taskA true).get = none ∧
    ∃ r1, ((Result.new taskA true).setVal (Any.make .uLong (5 : Nat))).get
        = some (Any.make .uLong (5 : Nat), r1) ∧
      (Any.make .uLong (5 : Nat)).cast_ .uLong = .ok (5 : Nat) ∧
      r1.semaphore_.resLimit_ = 0 ∧ r1.isValid = true ∧ r1.task_ = (Result.new taskA true).task_ :=
  Result_get_after_setVal (Result.new taskA true) rfl rfl .uLong (5 : Nat)

/-! ## C3: rejection of a submission into a full queue -/

theorem wait_for_all_false (pred : ThreadPool → Bool) (wakeups : List ThreadPool)
    (s : ThreadPool) (h : ∀ x ∈ s :: wakeups, pred x = false) :
    wait_for pred s wakeups = ((s :: wakeups).getLast (List.cons_ne_nil s wakeups), false) := by
  induction wakeups generalizing s with
  | nil => simp [wait_for, h s (by simp)]
  | cons s1 rest ih =>
    have hs : pred s = false := h s (by simp)
    have hrest : ∀ x ∈ s1 :: rest, pred x = false := fun x hx => h x (List.mem_cons_of_mem s hx)
    simp only [wait_for, hs, Bool.false_eq_true, if_false]
    rw [ih s1 hrest]
    simp [List.getLast_cons]

theorem notFull_of_at_limit (x : ThreadPool)
    (h : (x.taskQue_.length : Int) = x.taskQueMaxThreshold_) : x.notFull = false := by
  simp only [ThreadPool.notFull, decide_eq_false_iff_not, not_lt, toSizeT, ← h]
  omega

/-- C3: when the queue length is at the configured maximum at the call and at every wake-up
of the submission wait, `submitTask` returns an invalid handle and the pool state is the one
last observed, so nothing is enqueued; `get()` on that handle returns at once, although a
wait on its semaphore would block, and returns `Any("")`, the container of the empty
string. -/
theorem submitTask_full_rejects (s : ThreadPool) (wakeups : List ThreadPool) (sp : Task)
    (g : Int)
    (hfull : ∀ x ∈ s :: wakeups, (x.taskQue_.length : Int) = x.taskQueMaxThreshold_) :
    ∃ r, s.submitTask wakeups sp g
        = some ((s :: wakeups).getLast (List.cons_ne_nil s wakeups), g, r) ∧
      r.isValid = false ∧
      r.semaphore_.wait = none ∧
      r.get = some (Any.make .cstr "", r) ∧
      (Any.make .cstr "").cast_ .cstr = .ok "" := by
  have hw := wait_for_all_false ThreadPool.notFull wakeups s
    (fun x hx => notFull_of_at_limit x (hfull x hx))
  refine ⟨Result.new sp false, ?_, rfl, rfl, rfl, rfl⟩
  simp only [ThreadPool.submitTask, hw]

/-- C3 on a pool with queue limit 1 holding one task, observed unchanged at one wake-up. -/
theorem submitTask_full_rejects_witness :
    ∃ r, fullPool.submitTask [fullPool] taskB 0
        = some ((fullPool :: [fullPool]).getLast (List.cons_ne_nil fullPool [fullPool]), 0, r) ∧
      r.isValid = false ∧
      r.semaphore_.wait = none ∧
      r.get = some (Any.make .cstr "", r) ∧
      (Any.make .cstr "").cast_ .cstr = .ok "" :=
  submitTask_full_rejects fullPool [fullPool] taskB 0 (by decide)

/-! ## C5: the configuration setters -/

/-- C5, as stated, fails: on a freshly constructed pool (not running, `MODE_FIXED`),
`setThreadSizeThreshold(10)` does not store 10; the maximum worker count stays 128. -/
theorem setThreadSizeThreshold_fixed_counterexample :
    (ThreadPool.new 0).isPoolRunning_ = false ∧
    ((ThreadPool.new 0).setThreadSizeThreshold 10).threadSizeThreshold_ = 128 ∧
    ((ThreadPool.new 0).setThreadSizeThreshold 10).threadSizeThreshold_ ≠ 10 := by
  decide

/-- C5 amended: when the running flag is false, `setMode` and `setTaskQueMaxThreshold` store
their argument, and `setThreadSizeThreshold` stores its argument if the mode is
`MODE_CACHED` and leaves the pool state unchanged if the mode is `MODE_FIXED`; when the
running flag is true, all three leave the whole pool state unchanged. -/
theorem setters_effect (s : ThreadPool) (mode : PoolMode) (t : Int) :
    (s.isPoolRunning_ = false →
      s.setMode mode = { s with poolMode_ := mode } ∧
      s.setTaskQueMaxThreshold t = { s with taskQueMaxThreshold_ := t } ∧
      (s.poolMode_ = .MODE_CACHED →
        s.setThreadSizeThreshold t = { s with threadSizeThreshold_ := t }) ∧
      (s.poolMode_ = .MODE_FIXED → s.setThreadSizeThreshold t = s)) ∧
    (s.isPoolRunning_ = true →
      s.setMode mode = s ∧ s.setTaskQueMaxThreshold t = s ∧ s.setThreadSizeThreshold t = s) := by
  constructor
  · intro h
    refine ⟨?_, ?_, ?_, ?_⟩
    · simp [ThreadPool.setMode, ThreadPool.checkRuningState, h]
    · simp [ThreadPool.setTaskQueMaxThreshold, ThreadPool.checkRuningState, h]
    · intro hm
      simp [ThreadPool.setThreadSizeThreshold, ThreadPool.checkRuningState, h, hm]
    · intro hm
      simp [ThreadPool.setThreadSizeThreshold, ThreadPool.checkRuningState, h, hm]
  · intro h
    simp [ThreadPool.setMode, ThreadPool.setTaskQueMaxThreshold,
      ThreadPool.setThreadSizeThreshold, ThreadPool.checkRuningState, h]

/-- C5 amended, on a not-running pool switched to `MODE_CACHED`, with threshold 10. -/
theorem setters_effect_witness :
    ((ThreadPool.new 0).setMode .MODE_CACHED).setThreadSizeThreshold 10
      = { (ThreadPool.new 0).setMode .MODE_CACHED with threadSizeThreshold_ := 10 } :=
  ((setters_effect ((ThreadPool.new 0).setMode .MODE_CACHED) .MODE_FIXED 10).1
    (by decide)).2.2.1 (by decide)

/-! ## C8: `start` and the static id counter -/

/-- C8 evaluated: with the id counter at 0, `start(2)` on a fresh pool registers workers 0
and 1 and starts both; with the id counter at 4 (ids 0..3 already issued), `start(2)`
registers workers 4 and 5, then evaluates `threads_[0]`, which inserts a null pointer, and
dereferences it: no result. -/
theorem start_ignores_issued_ids :
    (ThreadPool.new 0).start 2 0
      = some ({ ThreadPool.new 0 with
                isPoolRunning_ := true
                initThreadSize_ := 2
                curThreadSize_ := 2
                idleThreadSize_ := 2
                threads_ := [(0, some ⟨0, 1⟩), (1, some ⟨1, 1⟩)] }, 2) ∧
    ThreadPool.startCreate 2 [] 4 = ([(4, some ⟨4, 0⟩), (5, some ⟨5, 0⟩)], 6) ∧
    UMap.index [(4, some ⟨4, 0⟩), (5, some ⟨5, 0⟩)] 0
      = ([(4, some ⟨4, 0⟩), (5, some ⟨5, 0⟩), (0, none)], none) ∧
    (ThreadPool.new 0).start 2 4 = none := by
  decide

/-! ## C9: worker exits during teardown -/

theorem wait_returns_pred (pred : ThreadPool → Bool) (wakeups : List ThreadPool) :
    ∀ s s1 : ThreadPool, wait pred s wakeups = some s1 → pred s1 = true := by
  induction wakeups with
  | nil =>
    intro s s1 h
    simp only [wait] at h
    split at h
    · rename_i hp
      simp only [Option.some.injEq] at h
      exact h ▸ hp
    · exact absurd h (by simp)
  | cons x rest ih =>
    intro s s1 h
    simp only [wait] at h
    split at h
    · rename_i hp
      simp only [Option.some.injEq] at h
      exact h ▸ hp
    · exact ih x s1 h

/-- The destructor returns only in a state whose registry is empty. -/
theorem destroy_returns_empty (s s1 : ThreadPool) (wakeups : List ThreadPool)
    (h : s.destroy wakeups = some s1) : s1.threads_ = [] := by
  have := wait_returns_pred _ wakeups _ _ h
  simpa using this

/-- C9 evaluated: in an elastic pool with floor 1 and two idle workers on which the destructor
has set the running flag to false, worker 1 waking from `wait_for` by timeout after 60
seconds of idleness leaves through the idle-retirement path: its registry entry is erased
and the counts are decremented, but `exitCond_` is not notified.  The same wake-up without
timeout, and the exit at the loop head, erase the entry and notify `exitCond_`. -/
theorem idle_retirement_skips_exit_signal :
    ∃ p, drainingProcess = some p ∧
      p.pool.isPoolRunning_ = false ∧
      p.pool.threads_ = [(0, some ⟨0, 1⟩), (1, some ⟨1, 1⟩)] ∧
      ThreadPool.threadFunc 1 .timeout 61 (.blocked 1) p.pool
        = (.returned, { p.pool with
            threads_ := [(0, some ⟨0, 1⟩)]
            curThreadSize_ := 1
            idleThreadSize_ := 1 }) ∧
      (ThreadPool.threadFunc 1 .timeout 61 (.blocked 1) p.pool).2.exitCond_ = p.pool.exitCond_ ∧
      ThreadPool.threadFunc 1 .no_timeout 61 (.blocked 1) p.pool
        = (.returned, { p.pool with
            threads_ := [(0, some ⟨0, 1⟩)]
            exitCond_ := p.pool.exitCond_ + 1 }) ∧
      ThreadPool.threadFunc 1 .timeout 61 (.loopHead 1) p.pool
        = (.returned, { p.pool with
            threads_ := [(0, some ⟨0, 1⟩)]
            exitCond_ := p.pool.exitCond_ + 1 }) := by
  refine ⟨_, rfl, ?_⟩
  decide

/-! ## C10: growth of the worker set on submission -/

theorem wrap32_eq_self (x : Int) (hlo : INT_MIN ≤ x) (hhi : x ≤ INT_MAX) : wrap32 x = x := by
  simp only [wrap32, INT_MIN, INT_MAX] at *
  omega

theorem wrap32_le_max (x : Int) : wrap32 x ≤ INT_MAX := by
  simp only [wrap32, INT_MAX]
  omega

/-- C10: for an accepted submission (the wait ends in state `s1` with the queue below its
limit; the `int` members hold 32-bit values), the pending count after the enqueue is
`taskSize_` after its `++`.  If the mode is `MODE_CACHED`, that pending count exceeds the
idle count and the current count is below the maximum, then `submitTask` appends exactly one
worker, started once, under the next id, and adds exactly one to the current and to the idle
count; in every other case the registry and both counts are unchanged.  The next id is not
yet a key of the registry.  The `++` on `taskSize_` adds exactly one unless `taskSize_` is
`INT_MAX`. -/
theorem submitTask_growth (s s1 : ThreadPool) (wakeups : List ThreadPool) (sp : Task) (g : Int)
    (hacc : wait_for ThreadPool.notFull s wakeups = (s1, true))
    (hint : s1.intFields = true)
    (hfresh : UMap.contains s1.threads_ g = false) :
    (s1.poolMode_ = .MODE_CACHED ∧ wrap32 (s1.taskSize_ + 1) > s1.idleThreadSize_
        ∧ s1.curThreadSize_ < s1.threadSizeThreshold_ →
      ∃ s2, s.submitTask wakeups sp g = some (s2, g + 1, Result.new sp true) ∧
        s2.taskQue_ = s1.taskQue_ ++ [sp] ∧
        s2.taskSize_ = wrap32 (s1.taskSize_ + 1) ∧
        s2.threads_ = s1.threads_ ++ [(g, some ⟨g, 1⟩)] ∧
        s2.curThreadSize_ = s1.curThreadSize_ + 1 ∧
        s2.idleThreadSize_ = s1.idleThreadSize_ + 1 ∧
        s2.intFields = true) ∧
    (¬ (s1.poolMode_ = .MODE_CACHED ∧ wrap32 (s1.taskSize_ + 1) > s1.idleThreadSize_
        ∧ s1.curThreadSize_ < s1.threadSizeThreshold_) →
      ∃ s2, s.submitTask wakeups sp g = some (s2, g, Result.new sp true) ∧
        s2.taskQue_ = s1.taskQue_ ++ [sp] ∧
        s2.taskSize_ = wrap32 (s1.taskSize_ + 1) ∧
        s2.threads_ = s1.threads_ ∧
        s2.curThreadSize_ = s1.curThreadSize_ ∧
        s2.idleThreadSize_ = s1.idleThreadSize_ ∧
        s2.intFields = true) ∧
    (s1.taskSize_ < INT_MAX → wrap32 (s1.taskSize_ + 1) = s1.taskSize_ + 1) ∧
    (s1.taskSize_ = INT_MAX → wrap32 (s1.taskSize_ + 1) = INT_MIN) := by
  simp only [ThreadPool.intFields, decide_eq_true_eq] at hint
  obtain ⟨ht1, ht2, hc1, hc2, hi1, hi2, hs1, hs2, hq1, hq2⟩ := hint
  have hwlo : INT_MIN ≤ wrap32 (s1.taskSize_ + 1) := by
    simp only [wrap32, INT_MIN]
    omega
  have hwhi := wrap32_le_max (s1.taskSize_ + 1)
  refine ⟨?_, ?_, ?_, ?_⟩
  · intro hc
    have hst := UMap.startAt_emplace_fresh s1.threads_ g ⟨g, 0⟩ hfresh
    have hidle : wrap32 (s1.idleThreadSize_ + 1) = s1.idleThreadSize_ + 1 :=
      wrap32_eq_self _ (by simp only [INT_MIN] at *; omega) (by have := hc.2.1; omega)
    refine ⟨{ s1 with
        taskQue_ := s1.taskQue_ ++ [sp]
        taskSize_ := wrap32 (s1.taskSize_ + 1)
        notEmpty_ := s1.notEmpty_ + 1
        threads_ := s1.threads_ ++ [(g, some ⟨g, 1⟩)]
        curThreadSize_ := s1.curThreadSize_ + 1
        idleThreadSize_ := s1.idleThreadSize_ + 1 }, ?_, rfl, rfl, rfl, rfl, rfl, ?_⟩
    · simp only [ThreadPool.submitTask, hacc, hc, Thread.new, Thread.getThreadId, hst, hidle]
      simp only [and_self, if_true]
      rfl
    · simp only [ThreadPool.intFields, decide_eq_true_eq]
      have h1 := hc.2.1
      have h2 := hc.2.2
      simp only [INT_MIN, INT_MAX] at *
      omega
  · intro hc
    refine ⟨{ s1 with
        taskQue_ := s1.taskQue_ ++ [sp]
        taskSize_ := wrap32 (s1.taskSize_ + 1)
        notEmpty_ := s1.notEmpty_ + 1 }, ?_, rfl, rfl, rfl, rfl, rfl, ?_⟩
    · simp only [ThreadPool.submitTask, hacc, hc, if_false]
    · simp only [ThreadPool.intFields, decide_eq_true_eq]
      exact ⟨ht1, ht2, hc1, hc2, hi1, hi2, hwlo, hwhi, hq1, hq2⟩
  · intro h
    exact wrap32_eq_self _ (by simp only [INT_MIN] at *; omega) (by omega)
  · intro h
    rw [h]
    decide

/-- C10 on a not-running `MODE_CACHED` pool with no worker, id counter at 0. -/
theorem submitTask_growth_witness :
    ∃ s2, cachedPool.submitTask [] taskA 0 = some (s2, 0 + 1, Result.new taskA true) ∧
      s2.taskQue_ = cachedPool.taskQue_ ++ [taskA] ∧
      s2.taskSize_ = wrap32 (cachedPool.taskSize_ + 1) ∧
      s2.threads_ = cachedPool.threads_ ++ [(0, some ⟨0, 1⟩)] ∧
      s2.curThreadSize_ = cachedPool.curThreadSize_ + 1 ∧
      s2.idleThreadSize_ = cachedPool.idleThreadSize_ + 1 ∧
      s2.intFields = true :=
  (submitTask_growth cachedPool cachedPool [] taskA 0 (by decide) (by decide) (by decide)).1
    (by decide)

/-! ## Effect of each call on the fields the invariants speak about -/

theorem UMap.key_of_mem_startAt (m m1 : UMap) (k : Int) (h : UMap.startAt m k = some m1) :
    ∀ e ∈ m1, ∃ e0 ∈ m, e0.1 = e.1 := by
  unfold UMap.startAt UMap.index at h
  cases hl : m.lookup k with
  | none => simp [hl] at h
  | some o =>
    cases o with
    | none => simp [hl] at h
    | some t =>
      simp only [hl, Option.some.injEq] at h
      subst h
      intro e he
      obtain ⟨e0, he0, hfe⟩ := List.mem_map.mp he
      refine ⟨e0, he0, ?_⟩
      subst hfe
      split <;> rfl

theorem UMap.mem_emplace (m : UMap) (k : Int) (v : Option Thread) :
    ∀ e ∈ UMap.emplace m k v, e ∈ m ∨ e.1 = k := by
  intro e he
  unfold UMap.emplace at he
  split at he
  · exact Or.inl he
  · rcases List.mem_append.mp he with h | h
    · exact Or.inl h
    · right
      simp only [List.mem_singleton] at h
      subst h
      rfl

theorem UMap.mem_erase (m : UMap) (k : Int) : ∀ e ∈ UMap.erase m k, e ∈ m := by
  intro e he
  exact (List.mem_filter.mp he).1

theorem UMap.not_contains_of_lt (m : UMap) (g : Int) (h : ∀ e ∈ m, e.1 < g) :
    UMap.contains m g = false := by
  unfold UMap.contains
  rw [List.any_eq_false]
  intro e he
  have := h e he
  simp only [beq_iff_eq]
  omega

/-- What a submission taken at the end of its wait does to the pool. -/
theorem submitTask_nil_effect (s s1 : ThreadPool) (sp : Task) (g g1 : Int) (r : Result)
    (h : s.submitTask [] sp g = some (s1, g1, r)) :
    s1.threadSizeThreshold_ = s.threadSizeThreshold_ ∧
    s1.initThreadSize_ = s.initThreadSize_ ∧
    (s1.curThreadSize_ = s.curThreadSize_ ∨
      (s.curThreadSize_ < s.threadSizeThreshold_ ∧ s1.curThreadSize_ = s.curThreadSize_ + 1)) ∧
    s1.taskQue_ = s.taskQue_ ++ (if r.isValid then [sp] else []) ∧
    g ≤ g1 ∧ g1 ≤ g + 1 ∧
    (∀ e ∈ s1.threads_, e.1 = g ∧ g1 = g + 1 ∨ ∃ e0 ∈ s.threads_, e0.1 = e.1) := by
  unfold ThreadPool.submitTask at h
  simp only [wait_for] at h
  cases hp : s.notFull with
  | false =>
    simp only [hp, Option.some.injEq, Prod.mk.injEq] at h
    obtain ⟨h1, h2, h3⟩ := h
    subst h1 h2 h3
    simp only [Result.new, Bool.false_eq_true, if_false, List.append_nil, le_refl, true_or,
      true_and, le_add_iff_nonneg_right, zero_le_one]
    exact fun e he => Or.inr ⟨e, he, rfl⟩
  | true =>
    simp only [hp] at h
    split at h
    · rename_i hc
      simp only [Thread.new, Thread.getThreadId] at h
      split at h
      · exact absurd h (by simp)
      · rename_i m hm
        simp only [Option.some.injEq, Prod.mk.injEq] at h
        obtain ⟨h1, h2, h3⟩ := h
        subst h1 h2 h3
        refine ⟨rfl, rfl, Or.inr ⟨hc.2.2, rfl⟩, by simp [Result.new], by omega, le_refl _, ?_⟩
        intro e he
        obtain ⟨e0, he0, hk⟩ := UMap.key_of_mem_startAt _ _ _ hm e he
        rcases UMap.mem_emplace _ _ _ e0 he0 with h4 | h4
        · exact Or.inr ⟨e0, h4, hk⟩
        · exact Or.inl ⟨by rw [← hk]; exact h4, rfl⟩
    · simp only [Option.some.injEq, Prod.mk.injEq] at h
      obtain ⟨h1, h2, h3⟩ := h
      subst h1 h2 h3
      refine ⟨rfl, rfl, Or.inl rfl, by simp [Result.new], le_refl _, by omega, ?_⟩
      exact fun e he => Or.inr ⟨e, he, rfl⟩

/-- What one step of a worker does to the pool. -/
theorem threadFunc_effect (threadId : Int) (status : CvStatus) (now : Int) (pc : ThreadPool.Pc)
    (s : ThreadPool) :
    let r := ThreadPool.threadFunc threadId status now pc s
    r.2.threadSizeThreshold_ = s.threadSizeThreshold_ ∧
    r.2.initThreadSize_ = s.initThreadSize_ ∧
    (r.2.curThreadSize_ = s.curThreadSize_ ∨
      (toSizeT s.curThreadSize_ > s.initThreadSize_ ∧
        r.2.curThreadSize_ = s.curThreadSize_ - 1)) ∧
    (∀ e ∈ r.2.threads_, e ∈ s.threads_) ∧
    (match r.1 with
      | .executing _ task => [task] ++ r.2.taskQue_ = s.taskQue_
      | _ => r.2.taskQue_ = s.taskQue_) := by
  cases pc with
  | loopHead lastTime =>
    simp only [ThreadPool.threadFunc]
    split
    · simp
    · exact ⟨rfl, rfl, Or.inl rfl, UMap.mem_erase _ _, rfl⟩
  | locked lastTime =>
    simp only [ThreadPool.threadFunc]
    split
    · rename_i hq
      simp [hq]
    · rename_i task rest hq
      simp [hq]
  | blocked lastTime =>
    simp only [ThreadPool.threadFunc]
    split
    · rename_i hc
      exact ⟨rfl, rfl, Or.inr ⟨hc.2.2.2, rfl⟩, UMap.mem_erase _ _, rfl⟩
    · split
      · exact ⟨rfl, rfl, Or.inl rfl, UMap.mem_erase _ _, rfl⟩
      · simp
  | executing lastTime task => simp [ThreadPool.threadFunc]
  | returned => simp [ThreadPool.threadFunc]

/-- A submission taken at the end of its wait has a result when the next id is unused. -/
theorem submitTask_nil_defined (s : ThreadPool) (sp : Task) (g : Int)
    (h : ∀ e ∈ s.threads_, e.1 < g) : ∃ res, s.submitTask [] sp g = some res := by
  have hst := UMap.startAt_emplace_fresh s.threads_ g ⟨g, 0⟩ (UMap.not_contains_of_lt _ _ h)
  unfold ThreadPool.submitTask
  simp only [wait_for]
  cases hp : s.notFull with
  | false => exact ⟨_, rfl⟩
  | true =>
    simp only [Thread.new, Thread.getThreadId, hst]
    split
    · exact ⟨_, rfl⟩
    · exact ⟨_, rfl⟩

/-- What a successful `start` does to the pool. -/
theorem start_effect (s s1 : ThreadPool) (n g g1 : Int) (h : s.start n g = some (s1, g1)) :
    0 ≤ n ∧ s1.curThreadSize_ = n ∧ s1.initThreadSize_ = toSizeT n ∧
    s1.threadSizeThreshold_ = s.threadSizeThreshold_ ∧ s1.isPoolRunning_ = true := by
  unfold ThreadPool.start at h
  split at h
  · exact absurd h (by simp)
  · rename_i hn
    simp only at h
    split at h
    · exact absurd h (by simp)
    · simp only [Option.some.injEq, Prod.mk.injEq] at h
      obtain ⟨h1, _⟩ := h
      subst h1
      exact ⟨by omega, rfl, rfl, rfl, rfl⟩

theorem setMode_effect (s : ThreadPool) (mode : PoolMode) :
    (s.setMode mode).curThreadSize_ = s.curThreadSize_ ∧
    (s.setMode mode).threadSizeThreshold_ = s.threadSizeThreshold_ ∧
    (s.setMode mode).initThreadSize_ = s.initThreadSize_ ∧
    (s.setMode mode).taskQue_ = s.taskQue_ ∧
    (s.setMode mode).threads_ = s.threads_ := by
  unfold ThreadPool.setMode
  split <;> simp

theorem setTaskQueMaxThreshold_effect (s : ThreadPool) (t : Int) :
    (s.setTaskQueMaxThreshold t).curThreadSize_ = s.curThreadSize_ ∧
    (s.setTaskQueMaxThreshold t).threadSizeThreshold_ = s.threadSizeThreshold_ ∧
    (s.setTaskQueMaxThreshold t).initThreadSize_ = s.initThreadSize_ ∧
    (s.setTaskQueMaxThreshold t).taskQue_ = s.taskQue_ ∧
    (s.setTaskQueMaxThreshold t).threads_ = s.threads_ := by
  unfold ThreadPool.setTaskQueMaxThreshold
  split <;> simp

theorem setThreadSizeThreshold_effect (s : ThreadPool) (t : Int) :
    (s.setThreadSizeThreshold t).curThreadSize_ = s.curThreadSize_ ∧
    ((s.setThreadSizeThreshold t).threadSizeThreshold_ = s.threadSizeThreshold_ ∨
      (s.setThreadSizeThreshold t).threadSizeThreshold_ = t) ∧
    (s.setThreadSizeThreshold t).initThreadSize_ = s.initThreadSize_ ∧
    (s.setThreadSizeThreshold t).taskQue_ = s.taskQue_ ∧
    (s.setThreadSizeThreshold t).threads_ = s.threads_ := by
  unfold ThreadPool.setThreadSizeThreshold
  split
  · simp
  · split <;> simp

/-- A property kept by every admitted call holds after every admitted sequence of calls. -/
theorem runWith_invariant (ok : Op → Process → Bool) (I : Process → Prop)
    (hstep : ∀ op p p1, ok op p = true → op.apply p = some p1 → I p → I p1) :
    ∀ (ops : List Op) (p q : Process), runWith ok ops p = some q → I p → I q := by
  intro ops
  induction ops with
  | nil =>
    intro p q h hp
    simp only [runWith, Option.some.injEq] at h
    exact h ▸ hp
  | cons op ops ih =>
    intro p q h hp
    simp only [runWith] at h
    split at h
    · rename_i hok
      split at h
      · exact absurd h (by simp)
      · rename_i p1 hap
        exact ih p1 q h (hstep op p p1 hok hap hp)
    · exact absurd h (by simp)

/-- Every call admitted by `boundedCall` keeps the worker count at or below the maximum. -/
theorem boundedCall_keeps_bound (op : Op) (p p1 : Process) (hok : boundedCall op p = true)
    (hap : op.apply p = some p1)
    (hI : p.pool.curThreadSize_ ≤ p.pool.threadSizeThreshold_) :
    p1.pool.curThreadSize_ ≤ p1.pool.threadSizeThreshold_ := by
  cases op with
  | setMode mode =>
    simp only [Op.apply, Option.some.injEq] at hap
    subst hap
    obtain ⟨h1, h2, _⟩ := setMode_effect p.pool mode
    simp only [h1, h2]
    exact hI
  | setTaskQueMaxThreshold t =>
    simp only [Op.apply, Option.some.injEq] at hap
    subst hap
    obtain ⟨h1, h2, _⟩ := setTaskQueMaxThreshold_effect p.pool t
    simp only [h1, h2]
    exact hI
  | setThreadSizeThreshold t =>
    simp only [Op.apply, Option.some.injEq] at hap
    subst hap
    simp only [boundedCall, decide_eq_true_eq] at hok
    show (p.pool.setThreadSizeThreshold t).curThreadSize_
      ≤ (p.pool.setThreadSizeThreshold t).threadSizeThreshold_
    unfold ThreadPool.setThreadSizeThreshold ThreadPool.checkRuningState
    split
    · exact hI
    · rename_i hrun
      split
      · rename_i hmode
        rcases hok with h | h | h
        · exact absurd h hrun
        · rw [hmode] at h
          exact absurd h (by decide)
        · exact h
      · exact hI
  | start n =>
    simp only [Op.apply] at hap
    split at hap
    · exact absurd hap (by simp)
    · rename_i s g hst
      simp only [Option.some.injEq] at hap
      subst hap
      simp only [boundedCall, decide_eq_true_eq] at hok
      obtain ⟨_, h1, _, h2, _⟩ := start_effect _ _ _ _ _ hst
      simp only [h1, h2]
      exact hok.2
  | submitTask sp =>
    simp only [Op.apply] at hap
    split at hap
    · exact absurd hap (by simp)
    · rename_i s g r hst
      simp only [Option.some.injEq] at hap
      subst hap
      obtain ⟨h1, _, h2, _⟩ := submitTask_nil_effect _ _ _ _ _ _ hst
      simp only [h1]
      rcases h2 with h2 | h2
      · rw [h2]; exact hI
      · rw [h2.2]; omega
  | threadFunc threadId status now pc =>
    simp only [Op.apply, Option.some.injEq] at hap
    subst hap
    obtain ⟨h1, _, h2, _⟩ := threadFunc_effect threadId status now pc p.pool
    simp only [h1]
    rcases h2 with h2 | h2
    · rw [h2]; exact hI
    · rw [h2.2]; omega
  | shutdown =>
    simp only [Op.apply, Option.some.injEq] at hap
    subst hap
    exact hI
  | newThread =>
    simp only [Op.apply, Option.some.injEq] at hap
    subst hap
    exact hI

/-! ## C6: the worker count and the configured maximum -/

/-- C6, as stated, fails: from a fresh pool, `setMode(MODE_CACHED)`,
`setThreadSizeThreshold(1)`, `start(2)` leads to worker count 2 above the maximum 1; and
without any `start`, two submissions that each add a worker followed by
`setThreadSizeThreshold(1)` lead to the same. -/
theorem worker_count_exceeds_counterexample :
    (∃ q, runWith anyCall
        [.setMode .MODE_CACHED, .setThreadSizeThreshold 1, .start 2] freshProcess = some q ∧
      q.pool.curThreadSize_ = 2 ∧ q.pool.threadSizeThreshold_ = 1 ∧
      ¬ q.pool.curThreadSize_ ≤ q.pool.threadSizeThreshold_) ∧
    (∃ q, runWith anyCall
        [.setMode .MODE_CACHED, .submitTask taskA, .submitTask taskB,
         .setThreadSizeThreshold 1] freshProcess = some q ∧
      q.pool.curThreadSize_ = 2 ∧ q.pool.threadSizeThreshold_ = 1 ∧
      ¬ q.pool.curThreadSize_ ≤ q.pool.threadSizeThreshold_) := by
  constructor
  · refine ⟨_, rfl, ?_⟩
    decide
  · refine ⟨_, rfl, ?_⟩
    decide

/-- C6 amended: in every state reached from a freshly constructed pool whose worker count
starts at or below the default maximum, by configuration calls, `start(n)`, submissions,
worker steps and the begin of teardown, where each `start(n)` has `0 ≤ n` at or below the
maximum configured at the call and each `setThreadSizeThreshold(t)` that takes effect
(running flag false, mode `MODE_CACHED`) has `t` at or above the current worker count, the
current worker count does not exceed the configured maximum; a `setThreadSizeThreshold`
call that the pool ignores may have any argument. -/
theorem worker_count_bounded (c0 g : Int) (hc0 : c0 ≤ THREAD_MAX_THRESHOLD) (ops : List Op)
    (q : Process) (hrun : runWith boundedCall ops ⟨ThreadPool.new c0, g⟩ = some q) :
    q.pool.curThreadSize_ ≤ q.pool.threadSizeThreshold_ :=
  runWith_invariant boundedCall
    (fun p => p.pool.curThreadSize_ ≤ p.pool.threadSizeThreshold_)
    boundedCall_keeps_bound ops ⟨ThreadPool.new c0, g⟩ q hrun hc0

/-- C6 amended, on an elastic pool with maximum 4 started with one worker, on which
`setThreadSizeThreshold(0)` is then called and ignored, and which grows to two workers. -/
theorem worker_count_bounded_witness :
    runWith boundedCall boundedCalls ⟨ThreadPool.new 0, 0⟩ = some grownProcess ∧
    grownProcess.pool.curThreadSize_ ≤ grownProcess.pool.threadSizeThreshold_ :=
  ⟨by decide, worker_count_bounded 0 0 (by decide) boundedCalls grownProcess (by decide)⟩

/-! ## C7: the floor of the worker count -/

/-- Every call other than `start` keeps the recorded floor and keeps the worker count at or
above it. -/
theorem notStart_keeps_floor (n : Nat) (op : Op) (p p1 : Process) (hok : notStart op p = true)
    (hap : op.apply p = some p1)
    (hI : p.pool.initThreadSize_ = n ∧ (n : Int) ≤ p.pool.curThreadSize_) :
    p1.pool.initThreadSize_ = n ∧ (n : Int) ≤ p1.pool.curThreadSize_ := by
  cases op with
  | setMode mode =>
    simp only [Op.apply, Option.some.injEq] at hap
    subst hap
    obtain ⟨h1, _, h2, _⟩ := setMode_effect p.pool mode
    simp only [h1, h2]
    exact hI
  | setTaskQueMaxThreshold t =>
    simp only [Op.apply, Option.some.injEq] at hap
    subst hap
    obtain ⟨h1, _, h2, _⟩ := setTaskQueMaxThreshold_effect p.pool t
    simp only [h1, h2]
    exact hI
  | setThreadSizeThreshold t =>
    simp only [Op.apply, Option.some.injEq] at hap
    subst hap
    obtain ⟨h1, _, h2, _⟩ := setThreadSizeThreshold_effect p.pool t
    simp only [h1, h2]
    exact hI
  | start k => simp [notStart] at hok
  | submitTask sp =>
    simp only [Op.apply] at hap
    split at hap
    · exact absurd hap (by simp)
    · rename_i s g r hst
      simp only [Option.some.injEq] at hap
      subst hap
      obtain ⟨_, h1, h2, _⟩ := submitTask_nil_effect _ _ _ _ _ _ hst
      simp only [h1]
      refine ⟨hI.1, ?_⟩
      rcases h2 with h2 | h2
      · rw [h2]; exact hI.2
      · rw [h2.2]; have := hI.2; omega
  | threadFunc threadId status now pc =>
    simp only [Op.apply, Option.some.injEq] at hap
    subst hap
    obtain ⟨_, h1, h2, _⟩ := threadFunc_effect threadId status now pc p.pool
    simp only [h1]
    refine ⟨hI.1, ?_⟩
    rcases h2 with h2 | h2
    · rw [h2]; exact hI.2
    · rw [h2.2]
      have h3 := h2.1
      have h4 := hI.2
      rw [hI.1] at h3
      simp only [toSizeT] at h3
      omega
  | shutdown =>
    simp only [Op.apply, Option.some.injEq] at hap
    subst hap
    exact hI
  | newThread =>
    simp only [Op.apply, Option.some.injEq] at hap
    subst hap
    exact hI

/-- C7: after `start(n)` with `n` a non-negative `int`, in every state reached by any calls
other than a further `start` (configuration calls, submissions, worker steps with any
wake-up status and any clock reading, begin of teardown), the recorded floor is `n` and the
current worker count is at least `n`; and a worker step taken in such a state lowers the
count only if the count is strictly greater than the floor. -/
theorem worker_count_floor (s s1 : ThreadPool) (g g1 n : Int) (hn : 0 ≤ n) (hmax : n ≤ INT_MAX)
    (hstart : s.start n g = some (s1, g1)) (ops : List Op) (q : Process)
    (hrun : runWith notStart ops ⟨s1, g1⟩ = some q) :
    (q.pool.initThreadSize_ : Int) = n ∧ n ≤ q.pool.curThreadSize_ ∧
    ∀ (threadId : Int) (status : CvStatus) (now : Int) (pc : ThreadPool.Pc),
      (ThreadPool.threadFunc threadId status now pc q.pool).2.curThreadSize_
          ≠ q.pool.curThreadSize_ →
        (q.pool.initThreadSize_ : Int) < q.pool.curThreadSize_ ∧
        (ThreadPool.threadFunc threadId status now pc q.pool).2.curThreadSize_
          = q.pool.curThreadSize_ - 1 ∧
        (ThreadPool.threadFunc threadId status now pc q.pool).1 = .returned := by
  obtain ⟨_, hc, hi, _⟩ := start_effect _ _ _ _ _ hstart
  have hto : toSizeT n = n.toNat := by
    simp only [toSizeT, INT_MAX] at *
    congr 1
    omega
  have hinv := runWith_invariant notStart
    (fun p => p.pool.initThreadSize_ = n.toNat ∧ ((n.toNat : Nat) : Int) ≤ p.pool.curThreadSize_)
    (notStart_keeps_floor n.toNat) ops ⟨s1, g1⟩ q hrun
    ⟨by rw [hi, hto], by simp only [hc]; omega⟩
  have hq1 : (q.pool.initThreadSize_ : Int) = n := by rw [hinv.1]; omega
  have hq2 : n ≤ q.pool.curThreadSize_ := by have := hinv.2; omega
  refine ⟨hq1, hq2, ?_⟩
  intro threadId status now pc hne
  cases pc with
  | loopHead lastTime =>
    exfalso; apply hne
    simp only [ThreadPool.threadFunc]
    split <;> rfl
  | locked lastTime =>
    exfalso; apply hne
    simp only [ThreadPool.threadFunc]
    split <;> rfl
  | blocked lastTime =>
    simp only [ThreadPool.threadFunc] at hne ⊢
    split
    · rename_i hcond
      have h3 := hcond.2.2.2
      simp only [toSizeT] at h3
      refine ⟨by omega, rfl, rfl⟩
    · rename_i hcond
      exfalso; apply hne
      simp only [hcond, if_false]
      split <;> rfl
  | executing lastTime task =>
    exfalso; apply hne
    simp only [ThreadPool.threadFunc]
  | returned =>
    exfalso; apply hne
    simp only [ThreadPool.threadFunc]

/-- C7 on an elastic pool started with one worker that grows to two workers, both of which
then idle for 60 seconds: the second worker retires, the first one stays. -/
theorem worker_count_floor_witness :
    cachedPool.start 1 0 = some (startedPool, 1) ∧
    runWith notStart growingCalls ⟨startedPool, 1⟩ = some flooredProcess ∧
    (flooredProcess.pool.initThreadSize_ : Int) = 1 ∧
    (1 : Int) ≤ flooredProcess.pool.curThreadSize_ :=
  have h := worker_count_floor cachedPool startedPool 0 1 1 (by decide) (by decide) (by decide)
    growingCalls flooredProcess (by decide)
  ⟨by decide, by decide, h.1, h.2.1⟩

/-! ## C4: first in, first out -/

/-- Every call other than `start`, made in a state whose registry keys are below the next id,
has a result, keeps that property, and changes the queue only by appending the task it
enqueues at the back and removing the task it dequeues from the front. -/
theorem notStart_queue_step (op : Op) (p : Process) (hok : notStart op p = true)
    (hids : FreshIds p) :
    ∃ p1, op.apply p = some p1 ∧ FreshIds p1 ∧
      dequeuedBy op p ++ p1.pool.taskQue_ = p.pool.taskQue_ ++ enqueuedBy op p := by
  cases op with
  | setMode mode =>
    obtain ⟨_, _, _, h1, h2⟩ := setMode_effect p.pool mode
    refine ⟨_, rfl, ?_, ?_⟩
    · intro e he
      simp only [h2] at he
      exact hids e he
    · simp [dequeuedBy, enqueuedBy, h1]
  | setTaskQueMaxThreshold t =>
    obtain ⟨_, _, _, h1, h2⟩ := setTaskQueMaxThreshold_effect p.pool t
    refine ⟨_, rfl, ?_, ?_⟩
    · intro e he
      simp only [h2] at he
      exact hids e he
    · simp [dequeuedBy, enqueuedBy, h1]
  | setThreadSizeThreshold t =>
    obtain ⟨_, _, _, h1, h2⟩ := setThreadSizeThreshold_effect p.pool t
    refine ⟨_, rfl, ?_, ?_⟩
    · intro e he
      simp only [h2] at he
      exact hids e he
    · simp [dequeuedBy, enqueuedBy, h1]
  | start k => simp [notStart] at hok
  | submitTask sp =>
    obtain ⟨⟨s1, g1, r⟩, hres⟩ := submitTask_nil_defined p.pool sp p.generateId_ hids
    obtain ⟨_, _, _, hq, hg1, hg2, hk⟩ := submitTask_nil_effect _ _ _ _ _ _ hres
    refine ⟨⟨s1, g1⟩, by simp [Op.apply, hres], ?_, ?_⟩
    · intro e he
      rcases hk e he with h | ⟨e0, he0, h0⟩
      · show e.1 < g1
        omega
      · have := hids e0 he0
        show e.1 < g1
        omega
    · simp only [dequeuedBy, enqueuedBy, hres, List.nil_append]
      exact hq
  | threadFunc threadId status now pc =>
    obtain ⟨_, _, _, hk, hq⟩ := threadFunc_effect threadId status now pc p.pool
    refine ⟨_, rfl, fun e he => hids e (hk e he), ?_⟩
    simp only [dequeuedBy, enqueuedBy, List.append_nil]
    revert hq
    generalize ThreadPool.threadFunc threadId status now pc p.pool = r
    obtain ⟨pc1, s1⟩ := r
    cases pc1 <;> simp
  | shutdown =>
    refine ⟨_, rfl, hids, ?_⟩
    simp [dequeuedBy, enqueuedBy, ThreadPool.shutdown]
  | newThread =>
    refine ⟨_, rfl, ?_, ?_⟩
    · intro e he
      have := hids e he
      show e.1 < p.generateId_ + 1
      omega
    · simp [dequeuedBy, enqueuedBy]

/-- The tasks dequeued so far, followed by the queue, are the initial queue followed by the
tasks enqueued so far. -/
theorem trace_queue (ops : List Op) :
    ∀ p : Process, FreshIds p → (∀ op ∈ ops, ∀ n, op ≠ .start n) →
      ∃ q enq deq, trace ops p = some (q, enq, deq) ∧
        deq ++ q.pool.taskQue_ = p.pool.taskQue_ ++ enq := by
  induction ops with
  | nil =>
    intro p _ _
    exact ⟨p, [], [], rfl, by simp⟩
  | cons op ops ih =>
    intro p hids hns
    have hok : notStart op p = true := by
      cases op with
      | start k => exact absurd rfl (hns _ (List.mem_cons_self _ _) k)
      | _ => rfl
    obtain ⟨p1, hap, hids1, hq1⟩ := notStart_queue_step op p hok hids
    obtain ⟨q, enq, deq, htr, hq⟩ :=
      ih p1 hids1 (fun o ho => hns o (List.mem_cons_of_mem _ ho))
    refine ⟨q, enqueuedBy op p ++ enq, dequeuedBy op p ++ deq, ?_, ?_⟩
    · simp only [trace, hok, if_true, hap, htr]
    · rw [List.append_assoc, hq, ← List.append_assoc, hq1, List.append_assoc]

/-- C4: for every sequence of submissions and worker steps (and any other calls but `start`)
applied one at a time to a pool with an empty queue, the sequence of dequeued tasks is an
initial segment of the sequence of enqueued tasks, the rest being the queue: the task
enqueued `i`-th is the task dequeued `i`-th, so of two tasks enqueued in positions `i < j`
the first is dequeued before the second whenever the second has been dequeued. -/
theorem fifo_order (ops : List Op) (p : Process) (hids : FreshIds p)
    (hempty : p.pool.taskQue_ = []) (hns : ∀ op ∈ ops, ∀ n, op ≠ .start n) :
    ∃ q enq deq, trace ops p = some (q, enq, deq) ∧
      deq ++ q.pool.taskQue_ = enq ∧
      ∀ i j : Nat, i < j → j < deq.length →
        i < deq.length ∧ deq[i]? = enq[i]? ∧ deq[j]? = enq[j]? := by
  obtain ⟨q, enq, deq, htr, hq⟩ := trace_queue ops p hids hns
  rw [hempty, List.nil_append] at hq
  refine ⟨q, enq, deq, htr, hq, ?_⟩
  intro i j hij hj
  have hi : i < deq.length := lt_trans hij hj
  refine ⟨hi, ?_, ?_⟩
  · rw [← hq, List.getElem?_append_left hi]
  · rw [← hq, List.getElem?_append_left hj]

/-- C4 on a fresh pool: A, B and A again are submitted, two dequeues return A then B. -/
theorem fifo_order_witness :
    ∃ q enq deq, trace fifoCalls freshProcess = some (q, enq, deq) ∧
      deq ++ q.pool.taskQue_ = enq ∧
      ∀ i j : Nat, i < j → j < deq.length →
        i < deq.length ∧ deq[i]? = enq[i]? ∧ deq[j]? = enq[j]? :=
  fifo_order fifoCalls freshProcess (by intro e he; cases he) (by decide)
    (by
      intro op hop n
      simp only [fifoCalls, List.mem_cons, List.mem_singleton, List.mem_nil_iff, or_false] at hop
      rcases hop with h | h | h | h | h <;> subst h <;> simp)

end ThreadPoolModel
